import Mathlib

/-!
Verification of `gwmemory/utils.py` against its specification.

The Python module is embedded shallowly:
  * floats become real numbers (`ℝ`), complex values become `ℂ`;
  * Python `**` on floats becomes `Real.rpow`, `np.exp` becomes `Real.exp`;
  * Python `//` and `%` on nonnegative ints coincide with Lean `Int` `/`, `%`
    (both are floor semantics on the inputs that occur);
  * numpy arrays become `List`s;
  * the external collaborators (the real-input FFT primitive, the
    hierarchical-archive reader, the file system) are passed in as explicit
    parameters, and fallible code returns `Except`.
-/

namespace GWMemory

/-- Python exceptions that the embedded code can raise. -/
inductive PyErr
  | typeError
  | keyError
  | unboundLocal
  deriving DecidableEq, Repr

/-! ## Mass-parameter conversions (utils.py lines 20-40) -/

/-- `m12_to_mc(m1, m2) = (m1*m2) ** (3.0/5.0) / (m1+m2) ** (1.0/5.0)`. -/
noncomputable def m12_to_mc (m1 m2 : ℝ) : ℝ :=
  (m1 * m2) ^ ((3 : ℝ) / 5) / (m1 + m2) ^ ((1 : ℝ) / 5)

/-- `m12_to_symratio(m1, m2) = m1*m2 / (m1+m2)**2`. -/
noncomputable def m12_to_symratio (m1 m2 : ℝ) : ℝ :=
  m1 * m2 / (m1 + m2) ^ 2

/-- `mc_eta_to_m12(mc, eta)` returns the pair
`(mc / eta**0.6 * (1 + (1-4*eta)**0.5) / 2, mc / eta**0.6 * (1 - (1-4*eta)**0.5) / 2)`. -/
noncomputable def mc_eta_to_m12 (mc eta : ℝ) : ℝ × ℝ :=
  (mc / eta ^ ((3 : ℝ) / 5) * (1 + (1 - 4 * eta) ^ ((1 : ℝ) / 2)) / 2,
   mc / eta ^ ((3 : ℝ) / 5) * (1 - (1 - 4 * eta) ^ ((1 : ℝ) / 2)) / 2)

/-! ## `nfft` (utils.py lines 78-105) -/

/-- The zero padding step of `nfft`: `if np.mod(len(ht), 2) == 1: ht = np.append(ht, 0)`. -/
def pad_even (ht : List ℝ) : List ℝ :=
  if ht.length % 2 = 1 then ht ++ [0] else ht

/-- `np.linspace(0, 1, n)`: `n` evenly spaced points from 0 to 1 inclusive
(`[0.0]` for `n = 1`, where the Lean convention `0 / 0 = 0` agrees with numpy's
special case). -/
noncomputable def linspace01 (n : ℕ) : List ℝ :=
  (List.range n).map (fun i : ℕ => (i : ℝ) / ((n : ℝ) - 1))

/-- `nfft(ht, sampling_frequency)`, with the real-input FFT primitive `np.fft.rfft`
passed in as the abstract parameter `rfft` (an excluded external collaborator).
Returns the pair `(hf, ff)` of the normalised spectrum and the frequency grid. -/
noncomputable def nfft (rfft : List ℝ → List ℂ) (ht : List ℝ)
    (sampling_frequency : ℝ) : List ℂ × List ℝ :=
  let ht2 := pad_even ht
  let LL := ht2.length
  let ff := (linspace01 (LL / 2 + 1)).map (fun x => sampling_frequency / 2 * x)
  let hf := (rfft ht2).map (fun z => z / (sampling_frequency : ℂ))
  (hf, ff)

/-- A concrete FFT stub satisfying the `rfft` length contract
(`len(np.fft.rfft(x)) = len(x)//2 + 1`), used to instantiate `nfft` on
concrete inputs. -/
noncomputable def rfftStub : List ℝ → List ℂ :=
  fun x => List.replicate (x.length / 2 + 1) 0

/-! ## `load_sxs_waveform` (utils.py lines 108-141)

The archive produced by `deepdish.io.load` is a two-level string-keyed
dictionary whose leaves are tables of `(time, real, imaginary)` rows; it is
embedded as `String → Option (String → Option (List (ℝ × ℝ × ℝ)))`, a missing
key raising `KeyError`.  The returned mode dictionary is embedded as an
insertion-ordered association list. -/

/-- The dataset row table of one spherical-harmonic mode: `(time, real, imaginary)` rows. -/
abbrev Dataset := List (ℝ × ℝ × ℝ)

/-- The archive: extraction key, then dataset-name key. -/
abbrev Archive := String → Option (String → Option Dataset)

/-- The dataset name `"Y_l{}_m{}.dat".format(ell, mm)`. -/
def formatModeKey (ell mm : ℤ) : String :=
  "Y_l" ++ toString ell ++ "_m" ++ toString mm ++ ".dat"

/-- The complex series `mode_array[:, 1] + 1j * mode_array[:, 2]` of a dataset. -/
noncomputable def modeSeries (d : Dataset) : List ℂ :=
  d.map (fun r => (r.2.1 : ℂ) + Complex.I * (r.2.2 : ℂ))

/-- One iteration of the explicit-modes loop:
`mode_array = waveform[extraction]["Y_l{}_m{}.dat".format(mode[0], mode[1])]`,
each missing key a `KeyError`. -/
def lookupMode (waveform : Archive) (extraction : String) (mode : ℤ × ℤ) :
    Except PyErr Dataset :=
  match waveform extraction with
  | none => .error .keyError
  | some grp =>
    match grp (formatModeKey mode.1 mode.2) with
    | none => .error .keyError
    | some d => .ok d

/-- The `for mode in modes` loop of `load_sxs_waveform`: accumulates the output
dictionary entries in insertion order and tracks the Python local `mode_array`
(the last dataset assigned, `none` while still unassigned). -/
noncomputable def loadModesLoop (waveform : Archive) (extraction : String) :
    List (ℤ × ℤ) → List ((ℤ × ℤ) × List ℂ) → Option Dataset →
    Except PyErr (List ((ℤ × ℤ) × List ℂ) × Option Dataset)
  | [], acc, last => .ok (acc, last)
  | mode :: rest, acc, _ =>
    match lookupMode waveform extraction mode with
    | .error e => .error e
    | .ok d => loadModesLoop waveform extraction rest (acc ++ [(mode, modeSeries d)]) (some d)

/-- `load_sxs_waveform(file_name, modes, extraction)` with the archive contents
(the result of `deepdish.io.load(file_name)`) passed in as `waveform`.

In the `modes is None` branch the source computes the subscript
`waveform[extraction]["Y_l{}_m{}.dat".format(ell, mm)[:, 1:]]`: Python first
evaluates `waveform[extraction]` (a `KeyError` if the extraction key is
missing) and then slices the dataset-name *string* with the tuple `[:, 1:]`,
which raises `TypeError` — so the first loop iteration (`ell = 2, mm = -2`)
always raises before any dataset lookup.

After the explicit-modes loop, `times = mode_array[:, 0]` raises an
unbound-local error when the loop body never ran. -/
noncomputable def load_sxs_waveform (waveform : Archive)
    (modes : Option (List (ℤ × ℤ))) (extraction : String) :
    Except PyErr (List ((ℤ × ℤ) × List ℂ) × List ℝ) :=
  match modes with
  | none =>
    match waveform extraction with
    | none => .error .keyError
    | some _ => .error .typeError
  | some ms =>
    match loadModesLoop waveform extraction ms [] none with
    | .error e => .error e
    | .ok (_, none) => .error .unboundLocal
    | .ok (acc, some d) => .ok (acc, d.map (fun r => r.1))

/-- A concrete archive in which every extraction key and every dataset name is
present (each dataset the single row `(0, 1, 2)`): it satisfies the premise
that every requested mode dataset exists. -/
noncomputable def fullArchive : Archive :=
  fun _ => some (fun _ => some [(0, 1, 2)])

/-! ## `get_version_information` (utils.py lines 154-160)

The file system is abstracted: `readResult` is the outcome of opening the
fixed-path `.version` file and reading its first line (`f.readline()`), an
`EnvironmentError` on any I/O failure.  The returned pair is
(the function's return value, whether the diagnostic message was printed). -/

/-- The I/O failure caught by `get_version_information` (`EnvironmentError`). -/
inductive EnvError
  | ioFailure
  deriving DecidableEq, Repr

/-- Python `str.rstrip()` restricted to its default whitespace stripping. -/
def rstrip (s : String) : String :=
  s.dropRightWhile Char.isWhitespace

/-- `get_version_information()`: on success returns the stripped first line and
prints nothing; on any `EnvironmentError` the exception is caught, the
diagnostic message is printed (second component `true`) and `None` is
returned.  The function is total: no exception propagates to the caller. -/
def get_version_information (readResult : Except EnvError String) :
    Option String × Bool :=
  match readResult with
  | .ok line => (some (rstrip line), false)
  | .error _ => (none, true)

/-! ## `planck` (utils.py lines 163-232) -/

/-- The taper half-width `t2 = min(M // 2, int(np.floor(e * (M - 1))))`. -/
noncomputable def planckT2 (M : ℤ) (e : ℝ) : ℤ :=
  min (M / 2) ⌊e * ((M : ℝ) - 1)⌋

/-- The intermediate value `z = t2/k + t2/(k - t2)` of the rising taper at
abscissa `k`. -/
noncomputable def planckZ (t2 : ℤ) (k : ℝ) : ℝ :=
  (t2 : ℝ) / k + (t2 : ℝ) / (k - (t2 : ℝ))

/-- The rising taper value `1/(exp(z) + 1)` at abscissa `k`. -/
noncomputable def planckW1val (t2 : ℤ) (k : ℝ) : ℝ :=
  1 / (Real.exp (planckZ t2 k) + 1)

/-- The rising taper `w1`: `w1 = np.arange(1, t2)` then
`w1 = t2/w1 + t2/(w1 - t2)` then `w1 = 1/(np.exp(w1) + 1)`; entry `i` of the
list is the value at `k = i + 1`, `k` ranging over `1 .. t2 - 1`. -/
noncomputable def planckW1 (t2 : ℤ) : List ℝ :=
  (List.range (t2 - 1).toNat).map (fun i : ℕ => planckW1val t2 ((i : ℝ) + 1))

/-- The symmetric core of `planck` for internal length `M ≥ 3`:
`w = np.concatenate(([0.0], w1, w2, w3, [0.0]))` with
`w2 = np.ones(M - 2 - len(w1)*2)` and `w3 = w1[::-1]`. -/
noncomputable def planckAssemble (M : ℤ) (e : ℝ) : List ℝ :=
  let w1 := planckW1 (planckT2 M e)
  let w2 := List.replicate (M - 2 - 2 * (w1.length : ℤ)).toNat (1 : ℝ)
  [0] ++ w1 ++ w2 ++ w1.reverse ++ [0]

/-- `planck(M, e, sym)`: empty for `M < 1`, boxcar for `M < 3`; for `M ≥ 3`,
when `sym` is false and `M` is even the construction runs on internal length
`M + 1` and the final element is dropped, otherwise the construction runs on
`M` directly. -/
noncomputable def planck (M : ℤ) (e : ℝ) (sym : Bool) : List ℝ :=
  if M < 1 then []
  else if M < 3 then List.replicate M.toNat 1
  else if sym = false ∧ M % 2 = 0 then (planckAssemble (M + 1) e).dropLast
  else planckAssemble M e

/-! ## `load_sxs_waveform` theorems -/

/-- Supporting fact: with `modes=None` the default-modes branch never returns a
mode mapping for any archive — it raises `KeyError` (extraction key missing)
or `TypeError` (the dataset-name string sliced with the tuple `[:, 1:]`). -/
lemma load_sxs_default_never_ok (wf : Archive) (ext : String) :
    load_sxs_waveform wf none ext = .error PyErr.keyError ∨
    load_sxs_waveform wf none ext = .error PyErr.typeError := by
  rw [load_sxs_waveform]
  cases wf ext <;> simp

/-- C1 (code-bug evidence): on an archive in which every mode dataset is
present, `load_sxs_waveform` with `modes=None` raises `TypeError` — the source
slices the dataset-name string with `[:, 1:]` — instead of returning the
mapping of all `(ell, m)` modes with `ell` in `2..4`. -/
theorem load_sxs_waveform_default_modes_type_error :
    load_sxs_waveform fullArchive none "OutermostExtraction.dir" =
      .error PyErr.typeError := rfl

/-- C9: with an explicitly empty `modes` collection the loop body never runs,
the local `mode_array` is never assigned, and building the time grid raises an
unbound-local error instead of returning an empty mode mapping. -/
theorem load_sxs_waveform_empty_modes_unbound (wf : Archive) (ext : String) :
    load_sxs_waveform wf (some []) ext = .error PyErr.unboundLocal := rfl

/-! ## `get_version_information` theorem -/

/-- C8: `get_version_information` is total (no exception propagates to the
caller); on any I/O failure it returns `None` having printed the diagnostic
message, and on success it returns the stripped first line of `.version`
without printing. -/
theorem get_version_information_catches_io_failure :
    (∀ e : EnvError, get_version_information (.error e) = (none, true)) ∧
    (∀ s : String, get_version_information (.ok s) = (some (rstrip s), false)) :=
  ⟨fun _ => rfl, fun _ => rfl⟩

/-! ## `nfft` theorems -/

lemma pad_even_length (ht : List ℝ) :
    (pad_even ht).length = if ht.length % 2 = 1 then ht.length + 1 else ht.length := by
  rw [pad_even]
  split <;> simp

lemma linspace01_length (n : ℕ) : (linspace01 n).length = n := by
  rw [linspace01, List.length_map, List.length_range]

lemma nfft_fst (rfft : List ℝ → List ℂ) (ht : List ℝ) (fs : ℝ) :
    (nfft rfft ht fs).1 = (rfft (pad_even ht)).map (fun z => z / (fs : ℂ)) := rfl

lemma nfft_snd (rfft : List ℝ → List ℂ) (ht : List ℝ) (fs : ℝ) :
    (nfft rfft ht fs).2 =
      (linspace01 ((pad_even ht).length / 2 + 1)).map (fun x => fs / 2 * x) := rfl

/-- C6: `nfft` pads an odd-length series with one zero (transformed length `L`
is `N` for even `N`, `N + 1` for odd `N`), returns the real-input DFT of the
padded series divided by the sampling frequency, and a frequency grid of
`L/2 + 1` evenly spaced points from `0` to `fs/2` inclusive; spectrum and grid
have the same length, `⌊N/2⌋ + 1` for even `N` and `⌊(N+1)/2⌋ + 1` for odd. -/
theorem nfft_padding_spectrum_grid (rfft : List ℝ → List ℂ)
    (hr : ∀ x : List ℝ, (rfft x).length = x.length / 2 + 1)
    (ht : List ℝ) (fs : ℝ) (hN : ht.length ≠ 0) (hfs : 0 < fs) :
    (pad_even ht).length = (if ht.length % 2 = 1 then ht.length + 1 else ht.length) ∧
    (nfft rfft ht fs).1 = (rfft (pad_even ht)).map (fun z => z / (fs : ℂ)) ∧
    (nfft rfft ht fs).1.length = (nfft rfft ht fs).2.length ∧
    (nfft rfft ht fs).2.length = (pad_even ht).length / 2 + 1 ∧
    (nfft rfft ht fs).2.length =
      (if ht.length % 2 = 0 then ht.length / 2 + 1 else (ht.length + 1) / 2 + 1) ∧
    (∀ (i : ℕ) (h : i < (nfft rfft ht fs).2.length),
      (nfft rfft ht fs).2.get ⟨i, h⟩ =
        fs / 2 * ((i : ℝ) / (((pad_even ht).length / 2 : ℕ) : ℝ))) ∧
    (nfft rfft ht fs).2.head? = some 0 ∧
    (nfft rfft ht fs).2.getLast? = some (fs / 2) := by
  have hlen2 : (nfft rfft ht fs).2.length = (pad_even ht).length / 2 + 1 := by
    rw [nfft_snd, List.length_map, linspace01_length]
  have hL2 : 2 ≤ (pad_even ht).length := by
    rw [pad_even_length]
    split <;> omega
  refine ⟨pad_even_length ht, nfft_fst rfft ht fs, ?_, hlen2, ?_, ?_, ?_, ?_⟩
  · rw [nfft_fst, nfft_snd, List.length_map, List.length_map, hr, linspace01_length]
  · rw [hlen2, pad_even_length]
    by_cases h : ht.length % 2 = 1
    · rw [if_pos h, if_neg (by omega)]
    · rw [if_neg h, if_pos (by omega)]
  · intro i h
    simp only [List.get_eq_getElem, nfft_snd, linspace01, List.map_map,
      List.getElem_map, List.getElem_range, Function.comp_apply]
    push_cast
    ring_nf
  · rw [nfft_snd, linspace01, List.range_succ_eq_map]
    simp
  · set k := (pad_even ht).length / 2 with hk
    have hk1 : 1 ≤ k := by omega
    have hkR : ((k : ℕ) : ℝ) ≠ 0 := Nat.cast_ne_zero.mpr (by omega)
    rw [nfft_snd, linspace01, List.range_succ, List.map_append, List.map_append,
      List.map_cons, List.map_cons, List.map_nil, List.map_nil, List.getLast?_concat]
    congr 1
    push_cast
    rw [add_sub_cancel_right, div_self hkR, mul_one]

/-- Closed instance of C6: `nfft` with the stub FFT on the odd-length series
`[1.0]` at sampling frequency `2`. -/
theorem nfft_padding_spectrum_grid_witness :
    (∀ x : List ℝ, (rfftStub x).length = x.length / 2 + 1) ∧
    ([(1 : ℝ)].length ≠ 0) ∧ ((0 : ℝ) < 2) ∧
    ((pad_even [(1 : ℝ)]).length =
        (if [(1 : ℝ)].length % 2 = 1 then [(1 : ℝ)].length + 1 else [(1 : ℝ)].length) ∧
      (nfft rfftStub [(1 : ℝ)] 2).1 =
        (rfftStub (pad_even [(1 : ℝ)])).map (fun z => z / ((2 : ℝ) : ℂ)) ∧
      (nfft rfftStub [(1 : ℝ)] 2).1.length = (nfft rfftStub [(1 : ℝ)] 2).2.length ∧
      (nfft rfftStub [(1 : ℝ)] 2).2.length = (pad_even [(1 : ℝ)]).length / 2 + 1 ∧
      (nfft rfftStub [(1 : ℝ)] 2).2.length =
        (if [(1 : ℝ)].length % 2 = 0 then [(1 : ℝ)].length / 2 + 1
          else ([(1 : ℝ)].length + 1) / 2 + 1) ∧
      (∀ (i : ℕ) (h : i < (nfft rfftStub [(1 : ℝ)] 2).2.length),
        (nfft rfftStub [(1 : ℝ)] 2).2.get ⟨i, h⟩ =
          (2 : ℝ) / 2 * ((i : ℝ) / (((pad_even [(1 : ℝ)]).length / 2 : ℕ) : ℝ))) ∧
      (nfft rfftStub [(1 : ℝ)] 2).2.head? = some 0 ∧
      (nfft rfftStub [(1 : ℝ)] 2).2.getLast? = some ((2 : ℝ) / 2)) :=
  ⟨fun x => by simp [rfftStub], by simp, by norm_num,
    nfft_padding_spectrum_grid rfftStub (fun x => by simp [rfftStub]) [(1 : ℝ)] 2
      (by simp) (by norm_num)⟩

/-! ## Mass round-trip theorem -/

/-- C7: for all `m1, m2 > 0`, converting to chirp mass and symmetric mass ratio
and back recovers the unordered pair `{m1, m2}` exactly over the reals, the
first returned mass being the larger one. -/
theorem mc_eta_to_m12_roundtrip (m1 m2 : ℝ) (h1 : 0 < m1) (h2 : 0 < m2) :
    mc_eta_to_m12 (m12_to_mc m1 m2) (m12_to_symratio m1 m2) = (max m1 m2, min m1 m2) := by
  have hs : (0 : ℝ) < m1 + m2 := by linarith
  have hp : (0 : ℝ) < m1 * m2 := mul_pos h1 h2
  have hp35 : (0 : ℝ) < (m1 * m2) ^ ((3 : ℝ) / 5) := Real.rpow_pos_of_pos hp _
  have hs15 : (0 : ℝ) < (m1 + m2) ^ ((1 : ℝ) / 5) := Real.rpow_pos_of_pos hs _
  have e1 : ((m1 + m2) ^ (2 : ℕ)) ^ ((3 : ℝ) / 5) = (m1 + m2) ^ ((6 : ℝ) / 5) := by
    rw [← Real.rpow_natCast (m1 + m2) 2, ← Real.rpow_mul hs.le]
    norm_num
  have e2 : (m12_to_symratio m1 m2) ^ ((3 : ℝ) / 5) =
      (m1 * m2) ^ ((3 : ℝ) / 5) / (m1 + m2) ^ ((6 : ℝ) / 5) := by
    rw [m12_to_symratio, Real.div_rpow hp.le (by positivity), e1]
  have e4 : (m1 + m2) ^ ((6 : ℝ) / 5) = (m1 + m2) * (m1 + m2) ^ ((1 : ℝ) / 5) := by
    rw [show (6 : ℝ) / 5 = 1 + 1 / 5 by norm_num, Real.rpow_add hs, Real.rpow_one]
  have hkey : m12_to_mc m1 m2 / (m12_to_symratio m1 m2) ^ ((3 : ℝ) / 5) = m1 + m2 := by
    rw [m12_to_mc, e2, e4]
    field_simp
    ring
  have h4 : (1 : ℝ) - 4 * m12_to_symratio m1 m2 = ((m1 - m2) / (m1 + m2)) ^ (2 : ℕ) := by
    rw [m12_to_symratio]
    field_simp
    ring
  have h5 : ((1 : ℝ) - 4 * m12_to_symratio m1 m2) ^ ((1 : ℝ) / 2) = |m1 - m2| / (m1 + m2) := by
    rw [h4, ← Real.sqrt_eq_rpow, div_pow, Real.sqrt_div (by positivity),
      Real.sqrt_sq_eq_abs, Real.sqrt_sq hs.le]
  rw [mc_eta_to_m12, h5, hkey]
  rcases le_total m1 m2 with h | h
  · rw [abs_of_nonpos (by linarith), max_eq_right h, min_eq_left h]
    simp only [Prod.mk.injEq]
    constructor <;> · field_simp; try ring
  · rw [abs_of_nonneg (by linarith), max_eq_left h, min_eq_right h]
    simp only [Prod.mk.injEq]
    constructor <;> · field_simp; try ring

/-- Closed instance of C7 at `m1 = 1`, `m2 = 2`. -/
theorem mc_eta_to_m12_roundtrip_witness :
    (0 : ℝ) < 1 ∧ (0 : ℝ) < 2 ∧
    mc_eta_to_m12 (m12_to_mc 1 2) (m12_to_symratio 1 2) = (2, 1) := by
  refine ⟨by norm_num, by norm_num, ?_⟩
  have h := mc_eta_to_m12_roundtrip 1 2 (by norm_num) (by norm_num)
  simpa using h

/-! ## Structural lemmas about `planck` -/

lemma planckW1_length (t2 : ℤ) : (planckW1 t2).length = (t2 - 1).toNat := by
  rw [planckW1, List.length_map, List.length_range]

lemma planckT2_le_half (M : ℤ) (e : ℝ) : planckT2 M e ≤ M / 2 :=
  min_le_left _ _

lemma planckAssemble_length (M : ℤ) (e : ℝ) (hM : 3 ≤ M) :
    (planckAssemble M e).length = M.toNat := by
  have h2 : planckT2 M e ≤ M / 2 := planckT2_le_half M e
  simp only [planckAssemble, List.length_append, List.length_replicate,
    List.length_reverse, List.length_cons, List.length_nil, planckW1_length]
  omega

lemma planck_sym_eq_assemble (M : ℤ) (e : ℝ) (hM : 3 ≤ M) :
    planck M e true = planckAssemble M e := by
  rw [planck, if_neg (by omega), if_neg (by omega), if_neg (by simp)]

lemma planckAssemble_head (M : ℤ) (e : ℝ) :
    (planckAssemble M e).head? = some 0 := rfl

lemma planckAssemble_getLast (M : ℤ) (e : ℝ) :
    (planckAssemble M e).getLast? = some 0 := by
  have h : planckAssemble M e =
      ([0] ++ planckW1 (planckT2 M e) ++
        List.replicate (M - 2 - 2 * ((planckW1 (planckT2 M e)).length : ℤ)).toNat (1 : ℝ) ++
        (planckW1 (planckT2 M e)).reverse) ++ [0] := by
    simp [planckAssemble, List.append_assoc]
  rw [h, List.getLast?_concat]

lemma planckT2_five : planckT2 5 (1 / 10) = 0 := by
  have hfloor : ⌊(1 / 10 : ℝ) * (((5 : ℤ) : ℝ) - 1)⌋ = 0 := by
    rw [Int.floor_eq_zero_iff]
    constructor <;> norm_num
  rw [planckT2, hfloor]
  decide

lemma planckW1_zero : planckW1 0 = [] := by
  have h : ((0 : ℤ) - 1).toNat = 0 := by decide
  rw [planckW1, h]
  rfl

lemma planck_five : planck 5 (1 / 10) true = [0, 1, 1, 1, 0] := by
  rw [planck_sym_eq_assemble 5 (1 / 10) (by norm_num), planckAssemble, planckT2_five,
    planckW1_zero]
  norm_num [List.replicate]

/-- C2: for every `M ≥ 3` and every `e`, `planck(M, e, sym=True)` has length
exactly `M` with first and last elements exactly `0.0`; in particular
`planck(5, 0.1) = [0.0, 1.0, 1.0, 1.0, 0.0]`. -/
theorem planck_sym_length_endpoints :
    (∀ (M : ℤ) (e : ℝ), 3 ≤ M →
      (planck M e true).length = M.toNat ∧
      (planck M e true).head? = some 0 ∧
      (planck M e true).getLast? = some 0) ∧
    planck 5 (1 / 10) true = [0, 1, 1, 1, 0] := by
  refine ⟨fun M e hM => ?_, planck_five⟩
  rw [planck_sym_eq_assemble M e hM]
  exact ⟨planckAssemble_length M e hM, planckAssemble_head M e, planckAssemble_getLast M e⟩

/-- Closed instance of C2 at `M = 7`, `e = 1/5` (and the concrete
`planck(5, 0.1)` value). -/
theorem planck_sym_length_endpoints_witness :
    (3 : ℤ) ≤ 7 ∧
    ((planck 7 (1 / 5) true).length = (7 : ℤ).toNat ∧
      (planck 7 (1 / 5) true).head? = some 0 ∧
      (planck 7 (1 / 5) true).getLast? = some 0) ∧
    planck 5 (1 / 10) true = [0, 1, 1, 1, 0] :=
  ⟨by norm_num, planck_sym_length_endpoints.1 7 (1 / 5) (by norm_num),
    planck_sym_length_endpoints.2⟩

/-- C4: for every `M ≤ 0`, `planck(M, e)` is the empty sequence (no error is
raised: the embedded function is total); for `M = 1` and `M = 2` it is a
sequence of `M` ones, in particular `planck(2, 0.1) = [1, 1]`. -/
theorem planck_small_M_cases :
    (∀ (M : ℤ) (e : ℝ), M ≤ 0 → planck M e true = []) ∧
    (∀ e : ℝ, planck 1 e true = [1]) ∧
    (∀ e : ℝ, planck 2 e true = [1, 1]) := by
  refine ⟨fun M e hM => ?_, fun e => ?_, fun e => ?_⟩
  · rw [planck, if_pos (by omega)]
  · rw [planck, if_neg (by norm_num), if_pos (by norm_num)]
    rfl
  · rw [planck, if_neg (by norm_num), if_pos (by norm_num)]
    rfl

/-- Closed instance of C4 at `M = -2` and at the concrete boxcar cases. -/
theorem planck_small_M_cases_witness :
    (-2 : ℤ) ≤ 0 ∧ planck (-2) (1 / 10) true = [] ∧
    planck 1 (1 / 10) true = [1] ∧ planck 2 (1 / 10) true = [1, 1] :=
  ⟨by norm_num, planck_small_M_cases.1 (-2) (1 / 10) (by norm_num),
    planck_small_M_cases.2.1 (1 / 10), planck_small_M_cases.2.2 (1 / 10)⟩

/-- C10: for every odd `M ≥ 1` and every `e`, `planck(M, e, sym=False)` equals
`planck(M, e, sym=True)`: the periodic adjustment only fires for even `M`. -/
theorem planck_periodic_odd_eq_sym (M : ℤ) (e : ℝ) (hM : 1 ≤ M) (hodd : M % 2 = 1) :
    planck M e false = planck M e true := by
  have hne : ¬M % 2 = 0 := by omega
  rw [planck, planck]
  simp [hne]

/-- Closed instance of C10 at `M = 5`, `e = 1/10`. -/
theorem planck_periodic_odd_eq_sym_witness :
    (1 : ℤ) ≤ 5 ∧ (5 : ℤ) % 2 = 1 ∧ planck 5 (1 / 10) false = planck 5 (1 / 10) true :=
  ⟨by norm_num, by norm_num, planck_periodic_odd_eq_sym 5 (1 / 10) (by norm_num) (by norm_num)⟩

/-- C5: for every even `M ≥ 3` and every `e`, `planck(M, e, sym=False)` is the
symmetric construction on internal length `M + 1` with its final element
dropped, and its length is exactly `M`. -/
theorem planck_periodic_even (M : ℤ) (e : ℝ) (hM : 3 ≤ M) (heven : M % 2 = 0) :
    planck M e false = (planck (M + 1) e true).dropLast ∧
    (planck M e false).length = M.toNat := by
  have hM1 : 3 ≤ M + 1 := by omega
  have heq : planck M e false = (planckAssemble (M + 1) e).dropLast := by
    rw [planck, if_neg (by omega), if_neg (by omega), if_pos ⟨rfl, heven⟩]
  refine ⟨?_, ?_⟩
  · rw [heq, planck_sym_eq_assemble (M + 1) e hM1]
  · rw [heq, List.length_dropLast, planckAssemble_length (M + 1) e hM1]
    omega

/-- Closed instance of C5 at `M = 4`, `e = 1/10`. -/
theorem planck_periodic_even_witness :
    (3 : ℤ) ≤ 4 ∧ (4 : ℤ) % 2 = 0 ∧
    (planck 4 (1 / 10) false = (planck 5 (1 / 10) true).dropLast ∧
      (planck 4 (1 / 10) false).length = (4 : ℤ).toNat) :=
  ⟨by norm_num, by norm_num, planck_periodic_even 4 (1 / 10) (by norm_num) (by norm_num)⟩

/-! ## Taper shape (C3) -/

lemma planckW1val_pos (t2 : ℤ) (k : ℝ) : 0 < planckW1val t2 k := by
  rw [planckW1val]
  positivity

lemma planckW1val_lt_one (t2 : ℤ) (k : ℝ) : planckW1val t2 k < 1 := by
  rw [planckW1val, div_lt_one (by positivity)]
  linarith [Real.exp_pos (planckZ t2 k)]

lemma planckW1_mem_bounds (t2 : ℤ) {x : ℝ} (hx : x ∈ planckW1 t2) : 0 < x ∧ x < 1 := by
  rw [planckW1] at hx
  simp only [List.mem_map, List.mem_range] at hx
  obtain ⟨i, _, rfl⟩ := hx
  exact ⟨planckW1val_pos _ _, planckW1val_lt_one _ _⟩

lemma planckZ_anti (t2 : ℤ) (ht2 : 2 ≤ t2) {a b : ℝ} (ha : 1 ≤ a) (hab : a ≤ b)
    (hb : b ≤ (t2 : ℝ) - 1) : planckZ t2 b ≤ planckZ t2 a := by
  have ht2R : (2 : ℝ) ≤ (t2 : ℝ) := by exact_mod_cast ht2
  have ha0 : 0 < a := by linarith
  have h1 : (t2 : ℝ) / b ≤ (t2 : ℝ) / a :=
    div_le_div_of_nonneg_left (by linarith) ha0 hab
  have h2 : (t2 : ℝ) / (b - t2) ≤ (t2 : ℝ) / (a - t2) := by
    have htb : 0 < (t2 : ℝ) - b := by linarith
    have h2' : (t2 : ℝ) / ((t2 : ℝ) - a) ≤ (t2 : ℝ) / ((t2 : ℝ) - b) :=
      div_le_div_of_nonneg_left (by linarith) htb (by linarith)
    rw [show a - (t2 : ℝ) = -((t2 : ℝ) - a) by ring,
      show b - (t2 : ℝ) = -((t2 : ℝ) - b) by ring, div_neg, div_neg]
    linarith
  rw [planckZ, planckZ]
  linarith

lemma planckW1val_mono (t2 : ℤ) (ht2 : 2 ≤ t2) {a b : ℝ} (ha : 1 ≤ a) (hab : a ≤ b)
    (hb : b ≤ (t2 : ℝ) - 1) : planckW1val t2 a ≤ planckW1val t2 b := by
  have hz := planckZ_anti t2 ht2 ha hab hb
  have h1 : Real.exp (planckZ t2 b) ≤ Real.exp (planckZ t2 a) := Real.exp_le_exp.mpr hz
  rw [planckW1val, planckW1val]
  exact one_div_le_one_div_of_le (by positivity) (by linarith)

lemma planckW1_get_val (t2 : ℤ) (i : ℕ) (h : i < (planckW1 t2).length) :
    (planckW1 t2).get ⟨i, h⟩ = planckW1val t2 ((i : ℝ) + 1) := by
  simp [planckW1]

lemma planckW1_sorted (t2 : ℤ) : List.Sorted (· ≤ ·) (planckW1 t2) := by
  by_cases ht2 : 2 ≤ t2
  · apply List.pairwise_iff_get.mpr
    intro i j hij
    rw [planckW1_get_val, planckW1_get_val]
    have hjlen : (j : ℕ) < (t2 - 1).toNat :=
      lt_of_lt_of_le j.isLt (le_of_eq (planckW1_length t2))
    apply planckW1val_mono t2 ht2
    · have : (0 : ℝ) ≤ (i : ℕ) := Nat.cast_nonneg _
      linarith
    · have : ((i : ℕ) : ℝ) ≤ ((j : ℕ) : ℝ) := by exact_mod_cast le_of_lt hij
      linarith
    · have hj1 : ((j : ℕ) : ℤ) + 1 ≤ t2 - 1 := by omega
      have : (((j : ℕ) : ℤ) : ℝ) + 1 ≤ (t2 : ℝ) - 1 := by exact_mod_cast hj1
      push_cast at this ⊢
      linarith
  · have hempty : (t2 - 1).toNat = 0 := by omega
    rw [planckW1, hempty]
    simp

lemma planck_flat_pos (M : ℤ) (e : ℝ) (hM : 3 ≤ M) (he1 : e < 1 / 2) :
    2 * planckT2 M e ≤ M - 2 := by
  have hM1 : (0 : ℝ) < (M : ℝ) - 1 := by
    have : (3 : ℝ) ≤ (M : ℝ) := by exact_mod_cast hM
    linarith
  have h0 : planckT2 M e ≤ ⌊e * ((M : ℝ) - 1)⌋ := min_le_right _ _
  have h1 : (planckT2 M e : ℝ) ≤ e * ((M : ℝ) - 1) := by
    calc (planckT2 M e : ℝ) ≤ (⌊e * ((M : ℝ) - 1)⌋ : ℝ) := by exact_mod_cast h0
      _ ≤ e * ((M : ℝ) - 1) := Int.floor_le _
  have h2 : e * ((M : ℝ) - 1) < (1 / 2) * ((M : ℝ) - 1) :=
    mul_lt_mul_of_pos_right he1 hM1
  have h3 : (2 : ℝ) * (planckT2 M e : ℝ) < (M : ℝ) - 1 := by linarith
  have h4 : 2 * planckT2 M e < M - 1 := by exact_mod_cast h3
  omega

/-- C3: for `M ≥ 3`, `e ∈ (0, 0.5)` and `sym=True`: the taper half-width is
`t2 = min(M // 2, floor(e*(M-1)))`; the rising taper values are
`w1[k] = 1/(exp(t2/k + t2/(k-t2)) + 1)` for `k = 1 .. t2-1`; the window is
`[0], w1, flat ones (nonempty), reversed w1, [0]`, every element lies in
`[0, 1]`, the rising part (and hence, by symmetry, the falling part reversed)
is monotone with the flat interior at the top, and the value `1.0` occurs only
in the flat region (every taper element is `< 1`). -/
theorem planck_taper_shape (M : ℤ) (e : ℝ) (hM : 3 ≤ M) (he0 : 0 < e) (he1 : e < 1 / 2) :
    planckT2 M e = min (M / 2) ⌊e * ((M : ℝ) - 1)⌋ ∧
    (∀ (i : ℕ) (h : i < (planckW1 (planckT2 M e)).length),
      (planckW1 (planckT2 M e)).get ⟨i, h⟩ =
        1 / (Real.exp ((planckT2 M e : ℝ) / ((i : ℝ) + 1) +
          (planckT2 M e : ℝ) / (((i : ℝ) + 1) - (planckT2 M e : ℝ))) + 1)) ∧
    (∃ c : ℕ, 0 < c ∧
      planck M e true =
        [0] ++ planckW1 (planckT2 M e) ++ List.replicate c (1 : ℝ) ++
          (planckW1 (planckT2 M e)).reverse ++ [0]) ∧
    (∀ x ∈ planck M e true, 0 ≤ x ∧ x ≤ 1) ∧
    List.Sorted (· ≤ ·) ((0 : ℝ) :: (planckW1 (planckT2 M e) ++ [1])) ∧
    (∀ x ∈ (0 : ℝ) :: planckW1 (planckT2 M e), x < 1) := by
  have hflat : 2 * planckT2 M e ≤ M - 2 := planck_flat_pos M e hM he1
  have hc : 0 < (M - 2 - 2 * ((planckW1 (planckT2 M e)).length : ℤ)).toNat := by
    rw [planckW1_length]
    omega
  have hdecomp : planck M e true =
      [0] ++ planckW1 (planckT2 M e) ++
        List.replicate (M - 2 - 2 * ((planckW1 (planckT2 M e)).length : ℤ)).toNat (1 : ℝ) ++
        (planckW1 (planckT2 M e)).reverse ++ [0] :=
    planck_sym_eq_assemble M e hM
  refine ⟨rfl, ?_, ⟨_, hc, hdecomp⟩, ?_, ?_, ?_⟩
  · intro i h
    rw [planckW1_get_val, planckW1val, planckZ]
  · intro x hx
    rw [hdecomp] at hx
    simp only [List.mem_append, List.mem_cons, List.mem_singleton, List.mem_replicate,
      List.mem_reverse, List.not_mem_nil, or_false] at hx
    rcases hx with ((((hx | hx) | hx) | hx) | hx)
    · simp only [hx]
      norm_num
    · have := planckW1_mem_bounds _ hx
      exact ⟨this.1.le, this.2.le⟩
    · simp only [hx.2]
      norm_num
    · have := planckW1_mem_bounds _ hx
      exact ⟨this.1.le, this.2.le⟩
    · simp only [hx]
      norm_num
  · rw [List.sorted_cons]
    refine ⟨?_, ?_⟩
    · intro b hb
      rcases List.mem_append.mp hb with hb | hb
      · exact (planckW1_mem_bounds _ hb).1.le
      · simp only [List.mem_singleton] at hb
        simp [hb]
    · rw [List.Sorted, List.pairwise_append]
      refine ⟨planckW1_sorted _, List.pairwise_singleton _ _, ?_⟩
      intro a ha b hb
      simp only [List.mem_singleton] at hb
      rw [hb]
      exact (planckW1_mem_bounds _ ha).2.le
  · intro x hx
    rcases List.mem_cons.mp hx with hx | hx
    · simp [hx]
    · exact (planckW1_mem_bounds _ hx).2

/-- Closed instance of C3 at `M = 5`, `e = 1/10`. -/
theorem planck_taper_shape_witness :
    (3 : ℤ) ≤ 5 ∧ (0 : ℝ) < 1 / 10 ∧ (1 / 10 : ℝ) < 1 / 2 ∧
    (planckT2 5 (1 / 10) = min ((5 : ℤ) / 2) ⌊(1 / 10 : ℝ) * (((5 : ℤ) : ℝ) - 1)⌋ ∧
      (∀ (i : ℕ) (h : i < (planckW1 (planckT2 5 (1 / 10))).length),
        (planckW1 (planckT2 5 (1 / 10))).get ⟨i, h⟩ =
          1 / (Real.exp ((planckT2 5 (1 / 10) : ℝ) / ((i : ℝ) + 1) +
            (planckT2 5 (1 / 10) : ℝ) / (((i : ℝ) + 1) - (planckT2 5 (1 / 10) : ℝ))) + 1)) ∧
      (∃ c : ℕ, 0 < c ∧
        planck 5 (1 / 10) true =
          [0] ++ planckW1 (planckT2 5 (1 / 10)) ++ List.replicate c (1 : ℝ) ++
            (planckW1 (planckT2 5 (1 / 10))).reverse ++ [0]) ∧
      (∀ x ∈ planck 5 (1 / 10) true, 0 ≤ x ∧ x ≤ 1) ∧
      List.Sorted (· ≤ ·) ((0 : ℝ) :: (planckW1 (planckT2 5 (1 / 10)) ++ [1])) ∧
      (∀ x ∈ (0 : ℝ) :: planckW1 (planckT2 5 (1 / 10)), x < 1)) :=
  ⟨by norm_num, by norm_num, by norm_num,
    planck_taper_shape 5 (1 / 10) (by norm_num) (by norm_num) (by norm_num)⟩

end GWMemory
